import Mathlib

/-!
Shallow embedding of the Quansheng UV-K5 remote-control serial protocol
engine (`comm.py`): the XOR stream cipher, the bit-serial CRC-16, the
command encoder `send_command`, the byte-wise frame decoder `process_byte`,
the frame dispatcher `parse_packet` and the screen-bitmap decoder
`parse_screen`, together with theorems about them.

Machine integers are modelled as `Nat` with explicit masking where the
source masks; `bytearray` becomes `List Nat`; exceptions become `Except`.
-/

namespace UVK5

/-- The fixed 16-byte XOR keystream table (`self.xor_array`). -/
def xorArray : List Nat :=
  [0x16, 0x6c, 0x14, 0xe6, 0x2e, 0x91, 0x0d, 0x40,
   0x21, 0x35, 0xd5, 0x40, 0x13, 0x03, 0xe9, 0x80]

/-- `crypt(byte, xor_index) = byte ^ xor_array[xor_index & 15]`. -/
def crypt (byte xorIndex : Nat) : Nat :=
  byte ^^^ (xorArray.getD (xorIndex &&& 15) 0)

/-- One round of the CRC loop body:
`crc <<= 1; if crc > 0xffff: crc ^= 0x1021; crc &= 0xffff`. -/
def crcRound (crc : Nat) : Nat :=
  let c := crc <<< 1
  if c > 0xffff then (c ^^^ 0x1021) &&& 0xffff else c

/-- `for _ in range(n)` iteration of `crcRound`. -/
def crcLoop : Nat → Nat → Nat
  | 0, c => c
  | n + 1, c => crcLoop n (crcRound c)

/-- `crc16(byte, crc)`: `crc ^= byte << 8` followed by 8 rounds. -/
def crc16 (byte crc : Nat) : Nat :=
  crcLoop 8 (crc ^^^ (byte <<< 8))

/-- Fold `crc16` over a byte list (the loop `for i in range(4, len(data))`). -/
def crcList : List Nat → Nat → Nat
  | [], c => c
  | b :: t, c => crcList t (crc16 b c)

/-- One argument of `send_command`: a Python `int`, `bytes`/`bytearray`,
or `list` of ints. -/
inductive Arg where
  | int (n : Nat)
  | bytes (l : List Nat)
  | list (l : List Nat)

/-- Serialization of a single argument in `send_command`'s parameter loop:
ints in the minimal 1/2/4 little-endian bytes, `bytes` verbatim, lists with
each element masked to one byte. -/
def serializeArg : Arg → List Nat
  | .int n =>
      if n ≤ 0xFF then [n]
      else if n ≤ 0xFFFF then [n &&& 0xFF, (n >>> 8) &&& 0xFF]
      else [n &&& 0xFF, (n >>> 8) &&& 0xFF, (n >>> 16) &&& 0xFF, (n >>> 24) &&& 0xFF]
  | .bytes l => l
  | .list l => l.map (· &&& 0xFF)

/-- The concatenated serialized parameters (`params`). -/
def serializeArgs (args : List Arg) : List Nat :=
  (args.map serializeArg).flatten

/-- Cipher a byte list starting at keystream position `i`
(the in-place loop `data[i] = self.crypt(data[i], i - 4)`). -/
def encFrom : List Nat → Nat → List Nat
  | [], _ => []
  | b :: t, i => crypt b i :: encFrom t (i + 1)

/-- The plaintext ciphered region built by `send_command` before the CRC:
command id (2 bytes LE), parameter byte count (2 bytes LE, appended by
`data[6:8] = [param_len & 0xFF, (param_len >> 8) & 0xFF]`), then the
serialized parameters. -/
def payloadOf (cmd : Nat) (args : List Arg) : List Nat :=
  let params := serializeArgs args
  let plen := params.length
  [cmd &&& 0xFF, (cmd >>> 8) &&& 0xFF, plen &&& 0xFF, (plen >>> 8) &&& 0xFF] ++ params

/-- The complete frame written to the transport by `send_command`:
`AB CD len_lo len_hi <ciphered payload> <ciphered crc> DC BA`, where the
header length field is `len(data) - 8` = byte count of the ciphered
payload (command id + length field + parameters, CRC not included). -/
def sendCommand (cmd : Nat) (args : List Arg) : List Nat :=
  let payload := payloadOf cmd args
  let crc := crcList payload 0
  let total := payload.length
  [0xAB, 0xCD, total &&& 0xFF, (total >>> 8) &&& 0xFF]
    ++ encFrom payload 0
    ++ [crypt (crc &&& 0xFF) payload.length,
        crypt ((crc >>> 8) &&& 0xFF) (payload.length + 1)]
    ++ [0xDC, 0xBA]

/-- The decoder's parsing stage (`class Stage(IntEnum)`). -/
inductive Stage where
  | Idle | CD | LenLSB | LenMSB | Data | CrcLSB | CrcMSB | DC | BA | UiType
  deriving DecidableEq, Repr

/-- The decoder state: `self.stage`, `self.data`, `self.p_len`, `self.p_cnt`. -/
structure DecState where
  stage : Stage
  data : List Nat
  p_len : Nat
  p_cnt : Nat
  deriving DecidableEq, Repr

/-- The state set up in `__init__`. -/
def initState : DecState := ⟨.Idle, [], 0, 0⟩

/-- `process_byte`, returning the new state and the accumulator passed to
`parse_packet` when a frame completes (`none` when no frame is emitted). -/
def step (s : DecState) (byte : Nat) : DecState × Option (List Nat) :=
  match s.stage with
  | .Idle =>
      if byte = 0xAB then ({ s with stage := .CD }, none)
      else if byte = 0xB5 then ({ s with stage := .UiType }, none)
      else (s, none)
  | .CD => ({ s with stage := if byte = 0xCD then .LenLSB else .Idle }, none)
  | .LenLSB => ({ s with p_len := byte, stage := .LenMSB }, none)
  | .LenMSB =>
      ({ s with p_len := s.p_len ||| (byte <<< 8), data := [], p_cnt := 0,
                stage := .Data }, none)
  | .Data =>
      let d := s.data ++ [crypt byte s.p_cnt]
      let c := s.p_cnt + 1
      ({ s with data := d, p_cnt := c,
                stage := if c ≥ s.p_len then .CrcLSB else .Data }, none)
  | .CrcLSB => ({ s with stage := .CrcMSB }, none)
  | .CrcMSB => ({ s with stage := .DC }, none)
  | .DC => ({ s with stage := if byte = 0xDC then .BA else .Idle }, none)
  | .BA => ({ s with stage := .Idle }, if byte = 0xBA then some s.data else none)
  | .UiType => (s, none)

/-- Feed a byte list through `process_byte`, collecting every frame
emission (every `parse_packet` invocation) in order. -/
def run (s : DecState) : List Nat → DecState × List (List Nat)
  | [] => (s, [])
  | b :: t =>
      let p := step s b
      let q := run p.1 t
      (q.1, p.2.toList ++ q.2)

/-- The retained bitmap `self.screen_data`: pixel value at (row, col).
`numpy` fixed shape (64, 128) is modelled by keeping every out-of-range
entry at 0. -/
def Screen := Nat → Nat → Nat

/-- `np.zeros((64, 128))`. -/
def zeros : Screen := fun _ _ => 0

/-- `screen[pixel_row, col] = is_lit`. -/
def setPix (scr : Screen) (r c v : Nat) : Screen :=
  fun r' c' => if r' = r ∧ c' = c then v else scr r' c'

/-- The inner `for bit in range(8)` loop of `parse_screen`, with its
early `break` when `row + bit >= 64`; `fuel` counts remaining iterations. -/
def setBits (pixels col row : Nat) : Nat → Nat → Screen → Screen
  | _, 0, scr => scr
  | bit, fuel + 1, scr =>
      if 64 ≤ row + bit then scr
      else setBits pixels col row (bit + 1) fuel
             (setPix scr (row + bit) col ((pixels >>> bit) &&& 1))

/-- One iteration of the triplet loop: read `(pixels, col, row_group)`,
discard when `col >= 128 or row >= 64`, otherwise write the 8 bits. -/
def applyTriplet (scr : Screen) (pixels col rowg : Nat) : Screen :=
  let row := rowg * 8
  if 128 ≤ col ∨ 64 ≤ row then scr
  else setBits pixels col row 0 8 scr

/-- The `for i in range(0, len(data), 3)` loop over triplets. -/
def screenFold : Screen → List Nat → Screen
  | scr, p :: c :: r :: rest => screenFold (applyTriplet scr p c r) rest
  | scr, _ => scr

/-- Errors raised while handling a completed frame: `ValueError` from
`parse_screen`, `IndexError` from out-of-range `bytearray` indexing. -/
inductive PErr where
  | formatError | indexError
  deriving DecidableEq, Repr

/-- `parse_screen(data, diff)` acting on the retained bitmap: raises
`ValueError` unless the length is a multiple of 3; starts from a zero
bitmap when `diff == 0`, else from the retained one; returns the bitmap
stored back into `self.screen_data`. -/
def parseScreen (retained : Screen) (data : List Nat) (diff : Nat) :
    Except PErr Screen :=
  if data.length % 3 ≠ 0 then .error .formatError
  else .ok (screenFold (if diff = 0 then zeros else retained) data)

/-- Python `data[i]` on a `bytearray`: raises `IndexError` out of range. -/
def getIdx (l : List Nat) (i : Nat) : Except PErr Nat :=
  match l[i]? with
  | some v => .ok v
  | none => .error .indexError

/-- `parse_packet(data)`: return silently on fewer than 2 bytes; decode the
command id; on `Packet.GetScreen` (0x803) read `data[2]`, `data[3]`,
`data[4]` (each may raise `IndexError`) and run `parse_screen` on
`data[5:]`; all other command ids do nothing. -/
def parsePacket (retained : Screen) (data : List Nat) : Except PErr Screen :=
  if data.length < 2 then .ok retained
  else
    let cmd := data.getD 0 0 ||| (data.getD 1 0) <<< 8
    if cmd = 0x803 then do
      let _offLo ← getIdx data 2
      let _offHi ← getIdx data 3
      let diff ← getIdx data 4
      parseScreen retained (data.drop 5) diff
    else .ok retained

/-- `QuanshengComm`'s protocol-relevant state: decoder plus retained bitmap. -/
structure Session where
  dec : DecState
  screen : Screen

/-- `process_byte` at the session level: advance the decoder one byte and,
when a frame is emitted, dispatch it through `parse_packet`. An error
escapes after the stage was already reset, leaving `screen_data`
unchanged. -/
def sessionStep (s : Session) (byte : Nat) : Session × Except PErr Unit :=
  let p := step s.dec byte
  match p.2 with
  | none => (⟨p.1, s.screen⟩, .ok ())
  | some data =>
      match parsePacket s.screen data with
      | .ok scr => (⟨p.1, scr⟩, .ok ())
      | .error e => (⟨p.1, s.screen⟩, .error e)

/-- `colsAre c data` holds when every triplet of `data` carries column
byte `c` (and the list chunks exactly into triplets). -/
def colsAre (c : Nat) : List Nat → Bool
  | [] => true
  | _ :: cc :: _ :: rest => cc == c && colsAre c rest
  | _ => false

/-- One round of the reference bit-serial CRC step from the spec:
MSB-first — test the top bit of the 16-bit register, shift left one,
conditionally XOR the polynomial `0x1021`, reduce to 16 bits. -/
def crcRoundRef (c : Nat) : Nat :=
  if c.testBit 15 then ((2 * c) ^^^ 0x1021) % 65536 else (2 * c) % 65536

/-- Eight reference rounds. -/
def crcLoopRef : Nat → Nat → Nat
  | 0, c => c
  | n + 1, c => crcLoopRef n (crcRoundRef c)

/-- The reference CRC-16 step of the claim: XOR `byte` into the high half
of `crc`, then 8 MSB-first rounds with polynomial `0x1021`. -/
def crc16Ref (byte crc : Nat) : Nat :=
  crcLoopRef 8 (crc ^^^ byte * 256)

/- ------------------------------------------------------------------ -/
/- Arithmetic helper lemmas                                            -/
/- ------------------------------------------------------------------ -/

theorem and255_eq_mod (x : Nat) : x &&& 255 = x % 256 := by
  have h := Nat.and_pow_two_sub_one_eq_mod x 8
  norm_num at h
  exact h

theorem and65535_eq_mod (x : Nat) : x &&& 65535 = x % 65536 := by
  have h := Nat.and_pow_two_sub_one_eq_mod x 16
  norm_num at h
  exact h

theorem shiftLeft8_eq (x : Nat) : x <<< 8 = x * 256 := by
  rw [Nat.shiftLeft_eq]

theorem shiftRight8_eq (x : Nat) : x >>> 8 = x / 256 := by
  rw [Nat.shiftRight_eq_div_pow]

/-- Recombining a 16-bit value from its two little-endian bytes. -/
theorem recomb16 (n : Nat) (h : n < 65536) :
    (n &&& 255) ||| (((n >>> 8) &&& 255) <<< 8) = n := by
  rw [and255_eq_mod, shiftRight8_eq, and255_eq_mod, shiftLeft8_eq]
  have h1 : n / 256 % 256 = n / 256 := Nat.mod_eq_of_lt (by omega)
  rw [h1, Nat.or_comm, Nat.mul_comm]
  have hb : n % 256 < 2 ^ 8 := by norm_num [Nat.mod_lt]
  have h2 := Nat.mul_add_lt_is_or hb (n / 256)
  norm_num at h2
  rw [← h2]
  omega

/- ------------------------------------------------------------------ -/
/- Cipher and run lemmas                                               -/
/- ------------------------------------------------------------------ -/

theorem crypt_crypt (b i : Nat) : crypt (crypt b i) i = b := by
  unfold crypt
  rw [Nat.xor_assoc, Nat.xor_self, Nat.xor_zero]

theorem encFrom_length : ∀ (l : List Nat) (i : Nat), (encFrom l i).length = l.length
  | [], _ => rfl
  | _ :: t, i => by simp [encFrom, encFrom_length t (i + 1)]

theorem encFrom_encFrom : ∀ (l : List Nat) (i : Nat), encFrom (encFrom l i) i = l
  | [], _ => rfl
  | b :: t, i => by simp [encFrom, crypt_crypt, encFrom_encFrom t (i + 1)]

theorem run_append (s : DecState) (a b : List Nat) :
    run s (a ++ b)
      = ((run (run s a).1 b).1, (run s a).2 ++ (run (run s a).1 b).2) := by
  induction a generalizing s with
  | nil => simp [run]
  | cons x t ih => simp [run, ih]

theorem run_cons (s : DecState) (b : Nat) (t : List Nat) :
    run s (b :: t)
      = ((run (step s b).1 t).1, (step s b).2.toList ++ (run (step s b).1 t).2) :=
  rfl

/-- A mid-payload byte in the `Data` stage: deciphered, appended, stay. -/
theorem step_data_mid (d : List Nat) (L c b : Nat) (h : c + 1 < L) :
    step ⟨.Data, d, L, c⟩ b = (⟨.Data, d ++ [crypt b c], L, c + 1⟩, none) := by
  simp only [step]
  rw [if_neg (by omega)]

/-- The final payload byte in the `Data` stage: advance to `CrcLSB`. -/
theorem step_data_last (d : List Nat) (L c b : Nat) (h : c + 1 ≥ L) :
    step ⟨.Data, d, L, c⟩ b = (⟨.CrcLSB, d ++ [crypt b c], L, c + 1⟩, none) := by
  simp only [step]
  rw [if_pos (by omega)]

/-- Feeding exactly the remaining declared payload bytes from the `Data`
stage accumulates their deciphered values and lands in `CrcLSB`. -/
theorem run_data : ∀ (l : List Nat) (d : List Nat) (c L : Nat),
    c + l.length = L → l ≠ [] →
    run ⟨.Data, d, L, c⟩ l = (⟨.CrcLSB, d ++ encFrom l c, L, L⟩, []) := by
  intro l
  induction l with
  | nil => intro d c L _ h; exact absurd rfl h
  | cons b t ih =>
      intro d c L hL _
      rw [run_cons]
      cases t with
      | nil =>
          rw [step_data_last d L c b (by simp at hL; omega)]
          simp at hL
          simp [run, encFrom, hL]
      | cons x xs =>
          rw [step_data_mid d L c b (by simp at hL; omega)]
          have hrec := ih (d ++ [crypt b c]) (c + 1) L (by simp at hL ⊢; omega) (by simp)
          rw [hrec]
          simp [encFrom]

/- ------------------------------------------------------------------ -/
/- C9: the alternate-sync state is absorbing                           -/
/- ------------------------------------------------------------------ -/

/-- C9: a `0xB5` byte in `Idle` moves the decoder to `UiType` (touching
nothing else and emitting nothing), and from `UiType` every byte
sequence leaves the whole state unchanged and emits no frame: the
decoder never returns to `Idle` and never resynchronizes. -/
theorem c9_uitype_absorbing :
    (∀ s : DecState, s.stage = .Idle →
        step s 0xB5 = ({ s with stage := .UiType }, none))
    ∧ (∀ (s : DecState) (l : List Nat), s.stage = .UiType →
        run s l = (s, [])) := by
  constructor
  · intro s hs
    simp [step, hs]
  · intro s l hs
    induction l with
    | nil => rfl
    | cons b t ih =>
        rw [run_cons]
        have hstep : step s b = (s, none) := by simp [step, hs]
        rw [hstep]
        simp [ih]

/-- Witness for C9 at a concrete state and byte list. -/
theorem c9_uitype_absorbing_witness :
    ((⟨.Idle, [7], 3, 2⟩ : DecState).stage = .Idle
      ∧ step ⟨.Idle, [7], 3, 2⟩ 0xB5 = (⟨.UiType, [7], 3, 2⟩, none))
    ∧ ((⟨.UiType, [1, 2], 5, 4⟩ : DecState).stage = .UiType
      ∧ run ⟨.UiType, [1, 2], 5, 4⟩ [0xAB, 0xCD, 0xBA, 0]
          = (⟨.UiType, [1, 2], 5, 4⟩, [])) :=
  ⟨⟨rfl, c9_uitype_absorbing.1 ⟨.Idle, [7], 3, 2⟩ rfl⟩,
   ⟨rfl, c9_uitype_absorbing.2 ⟨.UiType, [1, 2], 5, 4⟩ [0xAB, 0xCD, 0xBA, 0] rfl⟩⟩

/- ------------------------------------------------------------------ -/
/- C4: zero declared payload length                                    -/
/- ------------------------------------------------------------------ -/

/-- C4 (counterexample): after the header `AB CD 00 00` of a zero-length
frame the decoder is still in the `Data` stage, and the next byte IS
consumed into the accumulator (which then holds one byte, not zero)
before advancing to `CrcLSB` — refuting the claim that a declared length
of zero advances immediately, consuming no byte. -/
theorem c4_counterexample :
    (run initState [0xAB, 0xCD, 0x00, 0x00]).1.stage = Stage.Data
    ∧ (run initState [0xAB, 0xCD, 0x00, 0x00, 0x42]).1
        = ⟨.CrcLSB, [0x54], 0, 1⟩
    ∧ (run initState [0xAB, 0xCD, 0x00, 0x00, 0x42]).1.data ≠ [] := by
  refine ⟨rfl, by decide, by decide⟩

/-- C4 (amended): when the declared payload length is zero, the decoder
stays in the `Data` stage after the `LenMSB` byte and consumes exactly one
further byte (deciphered at position 0) into the accumulator before
advancing to `CrcLSB`; no frame emission occurs up to that point. -/
theorem c4_zero_length (b : Nat) :
    run initState [0xAB, 0xCD, 0x00, 0x00, b]
      = (⟨.CrcLSB, [crypt b 0], 0, 1⟩, []) :=
  rfl

/- ------------------------------------------------------------------ -/
/- C3: emissions do not depend on the checksum bytes                   -/
/- ------------------------------------------------------------------ -/

/-- C3: whenever the decoder reaches the `CrcLSB` stage, the next two
bytes of the stream (the frame's checksum bytes) are irrelevant: any two
continuations differing only in those two bytes produce the same decoder
state and the same sequence of frame emissions — no frame is ever
rejected for its checksum value. -/
theorem c3_checksum_independent (s : DecState) (pre suf : List Nat)
    (c1 c2 c1' c2' : Nat) (h : (run s pre).1.stage = .CrcLSB) :
    run s (pre ++ c1 :: c2 :: suf) = run s (pre ++ c1' :: c2' :: suf) := by
  have h1 : ∀ x : Nat, step (run s pre).1 x = ({ (run s pre).1 with stage := .CrcMSB }, none) := by
    intro x
    simp [step, h]
  have h2 : ∀ x : Nat, step ({ (run s pre).1 with stage := Stage.CrcMSB }) x
      = ({ (run s pre).1 with stage := .DC }, none) := by
    intro x
    simp [step]
  have key : ∀ x y : Nat, run (run s pre).1 (x :: y :: suf)
      = run ({ (run s pre).1 with stage := Stage.DC }) suf := by
    intro x y
    rw [run_cons, h1 x, run_cons, h2 y]
    simp
  rw [run_append, run_append, key c1 c2, key c1' c2']

/-- Witness for C3: a frame with payload length 1, checksum bytes replaced
by two different arbitrary pairs, same run result. -/
theorem c3_checksum_independent_witness :
    (run initState [0xAB, 0xCD, 0x01, 0x00, 0x42]).1.stage = Stage.CrcLSB
    ∧ run initState ([0xAB, 0xCD, 0x01, 0x00, 0x42] ++ 0x00 :: 0x01 :: [0xDC, 0xBA])
        = run initState ([0xAB, 0xCD, 0x01, 0x00, 0x42] ++ 0x77 :: 0x88 :: [0xDC, 0xBA]) :=
  ⟨by decide,
   c3_checksum_independent initState [0xAB, 0xCD, 0x01, 0x00, 0x42] [0xDC, 0xBA]
     0x00 0x01 0x77 0x88 (by decide)⟩

/- ------------------------------------------------------------------ -/
/- C1: encoder/decoder round trip                                      -/
/- ------------------------------------------------------------------ -/

theorem run_header (tlo thi : Nat) :
    run initState [0xAB, 0xCD, tlo, thi]
      = (⟨.Data, [], tlo ||| thi <<< 8, 0⟩, []) :=
  rfl

theorem run_tail (d : List Nat) (L c x y : Nat) :
    run ⟨.CrcLSB, d, L, c⟩ [x, y, 0xDC, 0xBA] = (⟨.Idle, d, L, c⟩, [d]) :=
  rfl

theorem encFrom_ne_nil (payload : List Nat) (i : Nat) (h : payload ≠ []) :
    encFrom payload i ≠ [] := by
  cases payload with
  | nil => exact absurd rfl h
  | cons b t => simp [encFrom]

/-- Feeding a whole well-formed frame around a ciphered payload (any two
bytes standing where the ciphered checksum goes) yields exactly one
emission: the deciphered payload. -/
theorem run_frame (payload : List Nat) (x y : Nat) (h0 : payload ≠ [])
    (hlt : payload.length < 65536) :
    run initState
      ([0xAB, 0xCD, payload.length &&& 255, (payload.length >>> 8) &&& 255]
        ++ encFrom payload 0 ++ [x, y] ++ [0xDC, 0xBA])
      = (⟨.Idle, payload, payload.length, payload.length⟩, [payload]) := by
  rw [List.append_assoc, List.append_assoc]
  rw [run_append, run_header]
  rw [recomb16 payload.length hlt]
  rw [run_append]
  have hdata := run_data (encFrom payload 0) [] 0 payload.length
      (by rw [encFrom_length]; omega) (encFrom_ne_nil payload 0 h0)
  rw [hdata]
  simp only [List.nil_append, encFrom_encFrom]
  have : ([x, y] ++ [0xDC, 0xBA]) = [x, y, 0xDC, 0xBA] := rfl
  rw [this, run_tail]

/-- C1 (counterexample): for command id `0x514` with the single integer
argument `0x13`, feeding the produced frame emits exactly one
accumulator, `[0x14, 0x05, 0x01, 0x00, 0x13]`; the serialized arguments
are `[0x13]`, but the accumulator's bytes after the leading two are
`[0x01, 0x00, 0x13]` — the embedded parameter-length field — so the
remainder does not equal the serialized arguments as claimed. -/
theorem c1_counterexample :
    (run initState (sendCommand 0x514 [Arg.int 0x13])).2
        = [[0x14, 0x05, 0x01, 0x00, 0x13]]
    ∧ serializeArgs [Arg.int 0x13] = [0x13]
    ∧ ([0x14, 0x05, 0x01, 0x00, 0x13] : List Nat).drop 2 ≠ [0x13] := by
  refine ⟨by decide, by decide, by decide⟩

/-- C1 (amended): for every 16-bit command id and argument list whose
serialized arguments fit in `0xFFFF - 4` bytes (so the frame's 16-bit
length field `param_len + 4` does not overflow), feeding the frame
produced by `send_command` byte-by-byte from `Idle` causes exactly one
frame emission; the emitted accumulator's leading two bytes read
little-endian equal the command id, and its remaining bytes are the
2-byte little-endian serialized-parameter count followed by the
serialized arguments (not the serialized arguments alone). -/
theorem c1_roundtrip_amended (cmd : Nat) (args : List Arg)
    (hcmd : cmd < 65536) (hlen : (serializeArgs args).length + 4 < 65536) :
    (run initState (sendCommand cmd args)).2 = [payloadOf cmd args]
    ∧ ((payloadOf cmd args).getD 0 0) ||| (((payloadOf cmd args).getD 1 0) <<< 8) = cmd
    ∧ (payloadOf cmd args).drop 2
        = [(serializeArgs args).length &&& 255,
           ((serializeArgs args).length >>> 8) &&& 255] ++ serializeArgs args := by
  have hplen : (payloadOf cmd args).length = (serializeArgs args).length + 4 := by
    simp [payloadOf]
  have hsend : sendCommand cmd args
      = [0xAB, 0xCD, (payloadOf cmd args).length &&& 255,
         ((payloadOf cmd args).length >>> 8) &&& 255]
        ++ encFrom (payloadOf cmd args) 0
        ++ [crypt (crcList (payloadOf cmd args) 0 &&& 255) (payloadOf cmd args).length,
            crypt ((crcList (payloadOf cmd args) 0 >>> 8) &&& 255)
              ((payloadOf cmd args).length + 1)]
        ++ [0xDC, 0xBA] := rfl
  refine ⟨?_, ?_, ?_⟩
  · rw [hsend]
    have hframe := run_frame (payloadOf cmd args)
        (crypt (crcList (payloadOf cmd args) 0 &&& 255) (payloadOf cmd args).length)
        (crypt ((crcList (payloadOf cmd args) 0 >>> 8) &&& 255)
          ((payloadOf cmd args).length + 1))
        (by simp [payloadOf]) (by omega)
    rw [hframe]
  · have hg : ((payloadOf cmd args).getD 0 0) ||| (((payloadOf cmd args).getD 1 0) <<< 8)
        = (cmd &&& 255) ||| (((cmd >>> 8) &&& 255) <<< 8) := rfl
    rw [hg, recomb16 cmd hcmd]
  · rfl

/-- Witness for C1 (amended) at `cmd = 0x801` (KeyPress), args `[19]`. -/
theorem c1_roundtrip_witness :
    (0x801 < 65536 ∧ (serializeArgs [Arg.int 19]).length + 4 < 65536)
    ∧ ((run initState (sendCommand 0x801 [Arg.int 19])).2 = [payloadOf 0x801 [Arg.int 19]]
      ∧ ((payloadOf 0x801 [Arg.int 19]).getD 0 0)
          ||| (((payloadOf 0x801 [Arg.int 19]).getD 1 0) <<< 8) = 0x801
      ∧ (payloadOf 0x801 [Arg.int 19]).drop 2
          = [(serializeArgs [Arg.int 19]).length &&& 255,
             ((serializeArgs [Arg.int 19]).length >>> 8) &&& 255]
            ++ serializeArgs [Arg.int 19]) :=
  ⟨⟨by decide, by decide⟩,
   c1_roundtrip_amended 0x801 [Arg.int 19] (by decide) (by decide)⟩

/- ------------------------------------------------------------------ -/
/- C2: the header length field                                         -/
/- ------------------------------------------------------------------ -/

/-- C2 (counterexample): for command id `0x514` with argument `0x13` the
frame's length field bytes 2-3 decode to 5, while the ciphered
payload-plus-checksum region of the frame (everything except the 2 sync,
2 length and 2 footer bytes) is 7 bytes — the field does not count the
two CRC bytes. -/
theorem c2_counterexample :
    ((sendCommand 0x514 [Arg.int 0x13]).getD 2 0)
        ||| (((sendCommand 0x514 [Arg.int 0x13]).getD 3 0) <<< 8) = 5
    ∧ (sendCommand 0x514 [Arg.int 0x13]).length - 6 = 7
    ∧ (5 : Nat) ≠ 7 := by
  refine ⟨by decide, by decide, by decide⟩

/-- C2 (amended): the 16-bit little-endian length field in bytes 2-3 of a
`send_command` frame equals the byte count of the ciphered payload
WITHOUT the two CRC bytes (command id + embedded parameter-length field +
serialized arguments); the full ciphered region of the frame is two bytes
longer than the field claims. -/
theorem c2_length_field (cmd : Nat) (args : List Arg)
    (hlen : (serializeArgs args).length + 4 < 65536) :
    ((sendCommand cmd args).getD 2 0) ||| (((sendCommand cmd args).getD 3 0) <<< 8)
        = (payloadOf cmd args).length
    ∧ (sendCommand cmd args).length - 6 = (payloadOf cmd args).length + 2 := by
  have hplen : (payloadOf cmd args).length = (serializeArgs args).length + 4 := by
    simp [payloadOf]
  constructor
  · have hg : ((sendCommand cmd args).getD 2 0) ||| (((sendCommand cmd args).getD 3 0) <<< 8)
        = ((payloadOf cmd args).length &&& 255)
          ||| ((((payloadOf cmd args).length >>> 8) &&& 255) <<< 8) := rfl
    rw [hg, recomb16 (payloadOf cmd args).length (by omega)]
  · have hlenf : (sendCommand cmd args).length = (payloadOf cmd args).length + 8 := by
      simp [sendCommand, encFrom_length]
    omega

/-- Witness for C2 (amended). -/
theorem c2_length_field_witness :
    ((serializeArgs [Arg.int 0x13]).length + 4 < 65536)
    ∧ (((sendCommand 0x514 [Arg.int 0x13]).getD 2 0)
          ||| (((sendCommand 0x514 [Arg.int 0x13]).getD 3 0) <<< 8)
        = (payloadOf 0x514 [Arg.int 0x13]).length
      ∧ (sendCommand 0x514 [Arg.int 0x13]).length - 6
        = (payloadOf 0x514 [Arg.int 0x13]).length + 2) :=
  ⟨by decide, c2_length_field 0x514 [Arg.int 0x13] (by decide)⟩

/- ------------------------------------------------------------------ -/
/- C8: crc16 equals the reference bit-serial CRC step                  -/
/- ------------------------------------------------------------------ -/

theorem crcRound_eq (c : Nat) (h : c < 65536) :
    crcRound c = crcRoundRef c ∧ crcRound c < 65536 := by
  have hshift : c <<< 1 = 2 * c := by rw [Nat.shiftLeft_eq, pow_one, Nat.mul_comm]
  have hbit : c.testBit 15 = decide (32768 ≤ c) := by
    rw [Nat.testBit_to_div_mod]
    have h2 : (2 : Nat) ^ 15 = 32768 := by norm_num
    rw [h2, decide_eq_decide]
    omega
  simp only [crcRound, crcRoundRef]
  rw [hshift, hbit]
  by_cases hc : 32768 ≤ c
  · rw [if_pos (by omega : 2 * c > 65535), if_pos (by simp [hc])]
    refine ⟨by rw [and65535_eq_mod], ?_⟩
    rw [and65535_eq_mod]
    exact Nat.mod_lt _ (by norm_num)
  · rw [if_neg (by omega : ¬ 2 * c > 65535), if_neg (by simp [hc])]
    exact ⟨by rw [Nat.mod_eq_of_lt (by omega)], by omega⟩

theorem crcLoop_eq : ∀ (n c : Nat), c < 65536 →
    crcLoop n c = crcLoopRef n c ∧ crcLoop n c < 65536
  | 0, _, h => ⟨rfl, h⟩
  | n + 1, c, h => by
      have hr := crcRound_eq c h
      simp only [crcLoop, crcLoopRef]
      rw [← hr.1]
      exact crcLoop_eq n (crcRound c) hr.2

/-- C8: for every `crc < 2^16` and `byte < 2^8`, `crc16 byte crc` equals
the reference MSB-first bit-serial CRC-16 step with polynomial `0x1021`
(XOR `byte << 8` into the register, 8 rounds of shift-test-XOR-mask), and
the result is below `2^16`. Purity is intrinsic: `crc16` is a function of
its two arguments with no other state. -/
theorem c8_crc16_matches_reference (byte crc : Nat) (hb : byte < 256)
    (hc : crc < 65536) :
    crc16 byte crc = crc16Ref byte crc ∧ crc16 byte crc < 65536 := by
  unfold crc16 crc16Ref
  rw [shiftLeft8_eq]
  apply crcLoop_eq
  have h1 : crc < 2 ^ 16 := by omega
  have h2 : byte * 256 < 2 ^ 16 := by omega
  simpa using Nat.xor_lt_two_pow h1 h2

/-- Witness for C8 at `byte = 0x37`, `crc = 0`. -/
theorem c8_crc16_matches_reference_witness :
    (0x37 < 256 ∧ 0 < 65536)
    ∧ (crc16 0x37 0 = crc16Ref 0x37 0 ∧ crc16 0x37 0 < 65536) :=
  ⟨⟨by decide, by decide⟩, c8_crc16_matches_reference 0x37 0 (by decide) (by decide)⟩

/- ------------------------------------------------------------------ -/
/- C5: parse_screen format error                                       -/
/- ------------------------------------------------------------------ -/

/-- A frame emission only happens in the `BA` stage, whose successor
stage is always `Idle`. -/
theorem step_emit_stage (s : DecState) (b : Nat) (x : List Nat)
    (h : (step s b).2 = some x) : (step s b).1.stage = .Idle := by
  cases hst : s.stage <;> simp only [step, hst] at h ⊢
  · split at h
    · exact Option.noConfusion h
    · split at h
      · exact Option.noConfusion h
      · exact Option.noConfusion h
  · exact Option.noConfusion h
  · exact Option.noConfusion h
  · exact Option.noConfusion h
  · exact Option.noConfusion h
  · exact Option.noConfusion h
  · exact Option.noConfusion h
  · exact Option.noConfusion h
  · exact Option.noConfusion h

/-- C5: `parse_screen` fails with the format error exactly when the
payload length is not a multiple of 3; and whenever processing a byte
ends in an error, the retained bitmap is unchanged and the decoder's
stage is `Idle` (it was reset before dispatch), so subsequent bytes parse
normally. -/
theorem c5_format_error :
    (∀ (retained : Screen) (data : List Nat) (diff : Nat),
        parseScreen retained data diff = .error .formatError
          ↔ data.length % 3 ≠ 0)
    ∧ (∀ (s : Session) (b : Nat) (r : Session) (e : PErr),
        sessionStep s b = (r, .error e) →
        r.screen = s.screen ∧ r.dec.stage = .Idle) := by
  constructor
  · intro retained data diff
    unfold parseScreen
    by_cases h3 : data.length % 3 = 0 <;> simp [h3]
  · intro s b r e h
    simp only [sessionStep] at h
    cases hp : (step s.dec b).2 with
    | none => rw [hp] at h; simp at h
    | some data =>
        rw [hp] at h
        cases hpp : parsePacket s.screen data with
        | ok scr => simp [hpp] at h
        | error err =>
            simp only [hpp] at h
            injection h with ha hb
            subst ha
            exact ⟨rfl, step_emit_stage s.dec b data hp⟩

/-- Witness for C5: a completed GetScreen frame whose triplet payload has
length 1 triggers the format error, leaving the bitmap and an `Idle`
decoder behind. -/
theorem c5_format_error_witness :
    (sessionStep ⟨⟨.BA, [0x03, 0x08, 0, 0, 0, 1], 6, 6⟩, zeros⟩ 0xBA
        = ((sessionStep ⟨⟨.BA, [0x03, 0x08, 0, 0, 0, 1], 6, 6⟩, zeros⟩ 0xBA).1,
           .error .formatError))
    ∧ ((sessionStep ⟨⟨.BA, [0x03, 0x08, 0, 0, 0, 1], 6, 6⟩, zeros⟩ 0xBA).1.screen
        = zeros
      ∧ (sessionStep ⟨⟨.BA, [0x03, 0x08, 0, 0, 0, 1], 6, 6⟩, zeros⟩ 0xBA).1.dec.stage
        = .Idle) :=
  ⟨rfl,
   c5_format_error.2 ⟨⟨.BA, [0x03, 0x08, 0, 0, 0, 1], 6, 6⟩, zeros⟩ 0xBA
     (sessionStep ⟨⟨.BA, [0x03, 0x08, 0, 0, 0, 1], 6, 6⟩, zeros⟩ 0xBA).1
     .formatError rfl⟩

/- ------------------------------------------------------------------ -/
/- C6: bitmap dimension/value invariant, out-of-range triplets          -/
/- ------------------------------------------------------------------ -/

theorem setBits_inv (pixels col row : Nat) (hcol : col < 128) :
    ∀ (fuel bit : Nat) (scr : Screen),
    (∀ r c, scr r c = 0 ∨ scr r c = 1) →
    (∀ r c, 64 ≤ r ∨ 128 ≤ c → scr r c = 0) →
    ((∀ r c, setBits pixels col row bit fuel scr r c = 0
        ∨ setBits pixels col row bit fuel scr r c = 1)
      ∧ (∀ r c, 64 ≤ r ∨ 128 ≤ c → setBits pixels col row bit fuel scr r c = 0))
  | 0, bit, scr, h01, hz => ⟨h01, hz⟩
  | fuel + 1, bit, scr, h01, hz => by
      simp only [setBits]
      by_cases hb : 64 ≤ row + bit
      · rw [if_pos hb]; exact ⟨h01, hz⟩
      · rw [if_neg hb]
        apply setBits_inv pixels col row hcol fuel (bit + 1)
        · intro r c
          unfold setPix
          by_cases h : r = row + bit ∧ c = col
          · rw [if_pos h]
            have hm : (pixels >>> bit) &&& 1 = (pixels >>> bit) % 2 :=
              Nat.and_one_is_mod _
            omega
          · rw [if_neg h]; exact h01 r c
        · intro r c hrc
          unfold setPix
          by_cases h : r = row + bit ∧ c = col
          · exfalso
            obtain ⟨h1, h2⟩ := h
            rcases hrc with hr | hc2
            · omega
            · omega
          · rw [if_neg h]; exact hz r c hrc

theorem applyTriplet_inv (scr : Screen) (p c rg : Nat)
    (h01 : ∀ r c, scr r c = 0 ∨ scr r c = 1)
    (hz : ∀ r c, 64 ≤ r ∨ 128 ≤ c → scr r c = 0) :
    ((∀ r c2, applyTriplet scr p c rg r c2 = 0 ∨ applyTriplet scr p c rg r c2 = 1)
      ∧ (∀ r c2, 64 ≤ r ∨ 128 ≤ c2 → applyTriplet scr p c rg r c2 = 0)) := by
  unfold applyTriplet
  by_cases hg : 128 ≤ c ∨ 64 ≤ rg * 8
  · rw [if_pos hg]; exact ⟨h01, hz⟩
  · rw [if_neg hg]
    push_neg at hg
    exact setBits_inv p c (rg * 8) hg.1 8 0 scr h01 hz

theorem screenFold_inv : ∀ (data : List Nat) (scr : Screen),
    (∀ r c, scr r c = 0 ∨ scr r c = 1) →
    (∀ r c, 64 ≤ r ∨ 128 ≤ c → scr r c = 0) →
    ((∀ r c, screenFold scr data r c = 0 ∨ screenFold scr data r c = 1)
      ∧ (∀ r c, 64 ≤ r ∨ 128 ≤ c → screenFold scr data r c = 0))
  | [], _, h01, hz => ⟨h01, hz⟩
  | [_], _, h01, hz => ⟨h01, hz⟩
  | [_, _], _, h01, hz => ⟨h01, hz⟩
  | p :: c :: rg :: rest, scr, h01, hz => by
      have h := applyTriplet_inv scr p c rg h01 hz
      simpa [screenFold] using
        screenFold_inv rest (applyTriplet scr p c rg) h.1 h.2

/-- C6: any successful `parse_screen` call (any diff flag) keeps the
retained bitmap a 64x128 grid of 0/1 values — pixels hold only 0 or 1
and nothing outside rows 0-63 / columns 0-127 is ever written — and an
out-of-range triplet (column byte >= 128 or row_group*8 >= 64) is
discarded, leaving the whole bitmap exactly as it was. -/
theorem c6_bitmap_invariant :
    (∀ (retained res : Screen) (data : List Nat) (diff : Nat),
        parseScreen retained data diff = .ok res →
        (∀ r c, retained r c = 0 ∨ retained r c = 1) →
        (∀ r c, 64 ≤ r ∨ 128 ≤ c → retained r c = 0) →
        ((∀ r c, res r c = 0 ∨ res r c = 1)
          ∧ (∀ r c, 64 ≤ r ∨ 128 ≤ c → res r c = 0)))
    ∧ (∀ (scr : Screen) (p c rg : Nat), 128 ≤ c ∨ 64 ≤ rg * 8 →
        applyTriplet scr p c rg = scr) := by
  constructor
  · intro retained res data diff hok h01 hz
    unfold parseScreen at hok
    by_cases h3 : data.length % 3 = 0
    · simp [h3] at hok
      have hb01 : ∀ r c, (if diff = 0 then zeros else retained) r c = 0
          ∨ (if diff = 0 then zeros else retained) r c = 1 := by
        intro r c
        by_cases hd : diff = 0 <;> simp [hd, zeros]
        exact h01 r c
      have hbz : ∀ r c, 64 ≤ r ∨ 128 ≤ c →
          (if diff = 0 then zeros else retained) r c = 0 := by
        intro r c hrc
        by_cases hd : diff = 0 <;> simp [hd, zeros]
        exact hz r c hrc
      rw [← hok]
      exact screenFold_inv data _ hb01 hbz
    · simp [h3] at hok
  · intro scr p c rg hg
    unfold applyTriplet
    rw [if_pos hg]

/-- Witness for C6: a single in-range triplet applied to the zero bitmap. -/
theorem c6_bitmap_invariant_witness :
    ((∀ r c, screenFold zeros [1, 0, 0] r c = 0 ∨ screenFold zeros [1, 0, 0] r c = 1)
      ∧ (∀ r c, 64 ≤ r ∨ 128 ≤ c → screenFold zeros [1, 0, 0] r c = 0))
    ∧ applyTriplet zeros 1 200 0 = zeros :=
  ⟨c6_bitmap_invariant.1 zeros (screenFold zeros [1, 0, 0]) [1, 0, 0] 1 rfl
      (fun _ _ => Or.inl rfl) (fun _ _ _ => rfl),
   c6_bitmap_invariant.2 zeros 1 200 0 (Or.inl (by omega))⟩

/- ------------------------------------------------------------------ -/
/- C7: incremental updates preserve untouched columns                  -/
/- ------------------------------------------------------------------ -/

theorem setPix_ne_col (scr : Screen) (r c v r2 c2 : Nat) (h : c2 ≠ c) :
    setPix scr r c v r2 c2 = scr r2 c2 := by
  unfold setPix
  rw [if_neg]
  rintro ⟨_, h2⟩
  exact h h2

theorem setBits_ne_col (pixels col row c2 : Nat) (h : c2 ≠ col) :
    ∀ (fuel bit : Nat) (scr : Screen) (r : Nat),
      setBits pixels col row bit fuel scr r c2 = scr r c2
  | 0, _, _, _ => rfl
  | fuel + 1, bit, scr, r => by
      simp only [setBits]
      by_cases hb : 64 ≤ row + bit
      · rw [if_pos hb]
      · rw [if_neg hb, setBits_ne_col pixels col row c2 h fuel (bit + 1),
          setPix_ne_col scr (row + bit) col _ r c2 h]

theorem applyTriplet_ne_col (scr : Screen) (p col rg c2 : Nat) (h : c2 ≠ col)
    (r : Nat) : applyTriplet scr p col rg r c2 = scr r c2 := by
  unfold applyTriplet
  by_cases hg : 128 ≤ col ∨ 64 ≤ rg * 8
  · rw [if_pos hg]
  · rw [if_neg hg]
    exact setBits_ne_col p col (rg * 8) c2 h 8 0 scr r

theorem screenFold_cols (c : Nat) : ∀ (data : List Nat) (scr : Screen),
    colsAre c data = true → ∀ (r c2 : Nat), c2 ≠ c →
    screenFold scr data r c2 = scr r c2
  | [], _, _, _, _, _ => rfl
  | [_], _, hca, _, _, _ => by simp [colsAre] at hca
  | [_, _], _, hca, _, _, _ => by simp [colsAre] at hca
  | p :: cc :: rg :: rest, scr, hca, r, c2, hne => by
      simp only [colsAre, Bool.and_eq_true, beq_iff_eq] at hca
      obtain ⟨hc, hrest⟩ := hca
      subst hc
      simp only [screenFold]
      rw [screenFold_cols cc rest _ hrest r c2 hne,
        applyTriplet_ne_col scr p cc rg c2 hne r]

/-- C7: in incremental mode (nonzero diff), a successful `parse_screen`
whose triplets all address one fixed in-range column `c` leaves every
pixel of every other column unchanged. -/
theorem c7_incremental_preserves (retained res : Screen) (data : List Nat)
    (diff c : Nat) (hdiff : diff ≠ 0) (_hc : c < 128)
    (hcols : colsAre c data = true)
    (hok : parseScreen retained data diff = .ok res) :
    ∀ (r c2 : Nat), c2 ≠ c → res r c2 = retained r c2 := by
  intro r c2 hne
  unfold parseScreen at hok
  by_cases h3 : data.length % 3 = 0
  · simp [h3, hdiff] at hok
    rw [← hok]
    exact screenFold_cols c data retained hcols r c2 hne
  · simp [h3] at hok

/-- Witness for C7: an incremental triplet on column 5 leaves the lit
pixel retained at (0, 7) unchanged. -/
theorem c7_incremental_preserves_witness :
    ((1 : Nat) ≠ 0 ∧ (5 : Nat) < 128 ∧ colsAre 5 [255, 5, 0] = true)
    ∧ screenFold (setPix zeros 0 7 1) [255, 5, 0] 0 7 = setPix zeros 0 7 1 0 7 :=
  ⟨⟨by decide, by decide, by decide⟩,
   c7_incremental_preserves (setPix zeros 0 7 1)
     (screenFold (setPix zeros 0 7 1) [255, 5, 0]) [255, 5, 0] 1 5
     (by decide) (by decide) (by decide) rfl 0 7 (by decide)⟩

/- ------------------------------------------------------------------ -/
/- C10: parse_packet is not total on short GetScreen frames            -/
/- ------------------------------------------------------------------ -/

/-- C10: a completed frame whose accumulator decodes to the GetScreen
command id `0x803` but holds only 2, 3 or 4 bytes drives `parse_packet`
into an out-of-range index access (`IndexError`), because its guard only
rejects accumulators shorter than 2 bytes. -/
theorem c10_short_screen_frame (retained : Screen) (data : List Nat)
    (hcmd : data.getD 0 0 ||| (data.getD 1 0) <<< 8 = 0x803)
    (h2 : 2 ≤ data.length) (h4 : data.length ≤ 4) :
    parsePacket retained data = .error .indexError := by
  match data, hcmd, h2, h4 with
  | [a, b], hcmd, _, _ =>
      (simp at hcmd;
       simp [parsePacket, getIdx, hcmd, Bind.bind, Except.bind])
  | [a, b, c], hcmd, _, _ =>
      (simp at hcmd;
       simp [parsePacket, getIdx, hcmd, Bind.bind, Except.bind])
  | [a, b, c, d], hcmd, _, _ =>
      (simp at hcmd;
       simp [parsePacket, getIdx, hcmd, Bind.bind, Except.bind])

/-- Witness for C10: the 2-byte accumulator `[0x03, 0x08]`. -/
theorem c10_short_screen_frame_witness :
    parsePacket zeros [0x03, 0x08] = .error .indexError :=
  c10_short_screen_frame zeros [0x03, 0x08] (by decide) (by decide) (by decide)

end UVK5
